import Mathlib

/-!
Verification of the `bhbs/logo` PNG encoder (`src/main.rs`).

The source is embedded shallowly: bytes are `Nat`s (always < 256 where the
code produces them), u32 arithmetic is `Nat` arithmetic with explicit
`% 2 ^ 32` where the code can wrap (release-mode wrapping semantics), and a
Rust panic (failed `assert!`, out-of-bounds slice, loop that cannot finish)
is modelled by `Option`/a `false` completion flag.  Bit operations are
translated as: `x >> k` is `x / 2 ^ k`, `x & 0xff` is `x % 256`,
`x & 1` is `x % 2`, `^` is `Nat.xor`, `|` is `Nat.lor`, `<<` is
`Nat.shiftLeft`.
-/

set_option maxRecDepth 100000

namespace Logo

/-- The constant `2 ^ 32`, the modulus of Rust `u32` arithmetic. -/
def U32 : Nat := 4294967296

namespace Crc32

/-- One iteration of the table-building loop in `Crc32::new`:
if the low bit is set, xor the right-shifted value with the polynomial
constant `0xedb88320` (`CRC32_INITIAL` in the source), else just shift. -/
def tableStep (v : Nat) : Nat :=
  if v % 2 = 1 then Nat.xor 0xedb88320 (v / 2) else v / 2

/-- Entry `i` of the 256-entry table built by `Crc32::new`: 8 iterations of
`tableStep` starting from `i`.  The source precomputes `table[i]` for
`i < 256`; we compute the entry on demand, which yields the same values. -/
def tableEntry (i : Nat) : Nat :=
  tableStep (tableStep (tableStep (tableStep
    (tableStep (tableStep (tableStep (tableStep i)))))))

/-- One step of `Crc32::update`:
`value = table[(value ^ byte) & 0xff] ^ (value >> 8)`. -/
def update1 (value i : Nat) : Nat :=
  Nat.xor (tableEntry (Nat.xor value i % 256)) (value / 256)

/-- Method `Crc32::update`: fold the bytes into the running value in input order. -/
def update (value : Nat) (buf : List Nat) : Nat :=
  buf.foldl update1 value

/-- Method `Crc32::finalize`: `value ^ 0xffffffff`, non-mutating. -/
def finalize (value : Nat) : Nat :=
  Nat.xor value 0xffffffff

/-- One-shot `Crc32::crc`: `start()` seeds the accumulator with
`0xffffffff`, then `update(buf)`, then `finalize()`. -/
def crc (buf : List Nat) : Nat :=
  finalize (update 0xffffffff buf)

end Crc32

namespace Adler32

/-- Constant `MOD_ADLER` in the source. -/
def MOD_ADLER : Nat := 65521

/-- One step of `Adler32::update` on state `(a, b)`:
`a = (a + byte) % MOD_ADLER; b = (a + b) % MOD_ADLER`, where the second
line uses the already-updated `a`. -/
def update1 (s : Nat × Nat) (i : Nat) : Nat × Nat :=
  let a := (s.1 + i) % MOD_ADLER
  (a, (a + s.2) % MOD_ADLER)

/-- Method `Adler32::update`: fold the bytes into the state in input order. -/
def update (s : Nat × Nat) (buf : List Nat) : Nat × Nat :=
  buf.foldl update1 s

/-- Method `Adler32::finalize`: `(b << 16) | a`. -/
def finalize (s : Nat × Nat) : Nat :=
  Nat.lor (Nat.shiftLeft s.2 16) s.1

/-- One-shot `Adler32::crc`: `start()` resets the state to `a = 1, b = 0`
(the state `Adler32::new` also produces), then `update(buf)`, then
`finalize()`. -/
def crc (buf : List Nat) : Nat :=
  finalize (update (1, 0) buf)

end Adler32

/-- Function `u32_to_u8_be`: the four big-endian bytes of a `u32`
(`(v >> 24) as u8, (v >> 16) as u8, (v >> 8) as u8, v as u8`). -/
def u32_to_u8_be (v : Nat) : List Nat :=
  [v / 16777216 % 256, v / 65536 % 256, v / 256 % 256, v % 256]

namespace fake_zlib

/-- Constant `CHUNK_SIZE` in `fake_zlib::compress`. -/
def CHUNK_SIZE : Nat := 65530

/-- The five bytes the loop in `fake_zlib::compress` emits in front of a
chunk's payload: `u8::from(is_last)`, then `LEN` little-endian
(`chunk_len & 0xff`, `(chunk_len >> 8) & 0xff`), then `NLEN`
(`0xff - low`, `0xff - high`). -/
def chunkHeader (isLast : Bool) (chunkLen : Nat) : List Nat :=
  [if isLast then 1 else 0,
   chunkLen % 256, chunkLen / 256 % 256,
   255 - chunkLen % 256, 255 - chunkLen / 256 % 256]

/-- The `loop` of `fake_zlib::compress`, plus the trailing Adler-32 bytes
appended after the `break`.  The loop walks `data[pos_curr..]`; here the
remaining slice is the argument.  `pos_next = min(len, pos + CHUNK_SIZE)`,
so each iteration takes `data.take CHUNK_SIZE`, and `is_last` holds
exactly when the remainder fits (`≤ CHUNK_SIZE`).  The Adler-32 state `s`
is threaded exactly as `crc.update(&data[pos_curr..pos_next])` does.
`fuel` only bounds the recursion; `compressRaw` supplies more fuel than
the loop can consume. -/
def compressChunks (fuel : Nat) (s : Nat × Nat) (data : List Nat) : List Nat :=
  match fuel with
  | 0 => []
  | fuel + 1 =>
    if data.length ≤ CHUNK_SIZE then
      chunkHeader true data.length ++ data
        ++ u32_to_u8_be (Adler32.finalize (Adler32.update s data))
    else
      chunkHeader false CHUNK_SIZE ++ data.take CHUNK_SIZE
        ++ compressChunks fuel (Adler32.update s (data.take CHUNK_SIZE))
            (data.drop CHUNK_SIZE)

/-- Value `final_len` as computed at the top of `fake_zlib::compress`: 2 header
bytes, 5 bytes per chunk where the chunk count is
`n + usize::from(data.len() != n * CHUNK_SIZE || data.is_empty())` with
`n = data.len() / CHUNK_SIZE`, the data itself, and 4 checksum bytes. -/
def final_len (data : List Nat) : Nat :=
  2 + 5 * (data.length / CHUNK_SIZE
      + (if data.length ≠ data.length / CHUNK_SIZE * CHUNK_SIZE
            ∨ data.isEmpty = true then 1 else 0))
    + data.length + 4

/-- The bytes `fake_zlib::compress` accumulates in `raw_data`: the fixed
zlib header `[120, 1]`, then the chunk loop starting from Adler state
`(1, 0)` (`Adler32::new`). -/
def compressRaw (data : List Nat) : List Nat :=
  120 :: 1 :: compressChunks (data.length + 1) (1, 0) data

/-- Function `fake_zlib::compress`, including its final
`assert_eq!(final_len, raw_data.len())`: `none` models the assertion
panicking. -/
def compress (data : List Nat) : Option (List Nat) :=
  if final_len data = (compressRaw data).length then some (compressRaw data)
  else none

end fake_zlib

/-- Chunk count as the spec states it: `ceil(len / 65530)` when `len` is
not an exact multiple of 65530, `len / 65530` when it is a nonzero exact
multiple, and 1 for empty input. -/
def numChunksSpec (len : Nat) : Nat :=
  if len = 0 then 1
  else if len % fake_zlib.CHUNK_SIZE = 0 then len / fake_zlib.CHUNK_SIZE
  else len / fake_zlib.CHUNK_SIZE + 1

/-- Spec-side partition of the input into chunks of at most 65530 bytes,
in order, full chunks first; an empty input yields one empty chunk. -/
def chunksOf (data : List Nat) : List (List Nat) :=
  if _h : data.length ≤ fake_zlib.CHUNK_SIZE then [data]
  else data.take fake_zlib.CHUNK_SIZE :: chunksOf (data.drop fake_zlib.CHUNK_SIZE)
termination_by data.length
decreasing_by simp only [List.length_drop, fake_zlib.CHUNK_SIZE] at *; omega

/-- Modelled from the spec's words for one stored block: a final-block
flag byte that is 1 exactly for the last chunk, 2 bytes little-endian
`LEN`, 2 bytes `NLEN` where each byte is `0xFF` minus the corresponding
`LEN` byte, then the `LEN` raw payload bytes. -/
def specBlock (isLast : Bool) (chunk : List Nat) : List Nat :=
  [if isLast then 1 else 0,
   chunk.length % 256, chunk.length / 256 % 256,
   255 - chunk.length % 256, 255 - chunk.length / 256 % 256]
    ++ chunk

/-- Serialize a list of chunks as stored blocks, flagging only the last
chunk as final. -/
def specBlocks : List (List Nat) → List Nat
  | [] => []
  | [c] => specBlock true c
  | c :: c2 :: rest => specBlock false c ++ specBlocks (c2 :: rest)

/-- Modelled from the spec's words for the whole zlib stream: fixed 2-byte
header `[0x78, 0x01]`, the stored blocks of the chunk partition, then the
big-endian 4-byte Adler-32 of all payload bytes. -/
def zlibSpecStream (data : List Nat) : List Nat :=
  [120, 1] ++ specBlocks (chunksOf data) ++ u32_to_u8_be (Adler32.crc data)

/-- Reference decoder for a raw DEFLATE stream made only of stored
blocks: read the final flag, `LEN` little-endian, `NLEN` (checked to be
the bytewise complement of `LEN`), take `LEN` payload bytes, and repeat
until a block with flag 1; returns the concatenated payloads and the
bytes remaining after the final block. -/
def parseBlocks (bytes : List Nat) : Option (List Nat × List Nat) :=
  match bytes with
  | flag :: l0 :: l1 :: n0 :: n1 :: rest =>
    if n0 + l0 = 255 ∧ n1 + l1 = 255 ∧ l0 + 256 * l1 ≤ rest.length then
      if flag = 1 then
        some (rest.take (l0 + 256 * l1), rest.drop (l0 + 256 * l1))
      else if flag = 0 then
        match parseBlocks (rest.drop (l0 + 256 * l1)) with
        | some p => some (rest.take (l0 + 256 * l1) ++ p.1, p.2)
        | none => none
      else none
    else none
  | _ => none
termination_by bytes.length
decreasing_by simp only [List.length_drop, List.length_cons]; omega

/-- Reference zlib decoder for stored-only streams: checks the 2-byte
header, parses the stored blocks, and demands that exactly the 4
big-endian Adler-32 bytes of the decoded payload remain as the trailer. -/
def zlibDecode (bytes : List Nat) : Option (List Nat) :=
  match bytes with
  | b0 :: b1 :: rest =>
    if b0 = 120 ∧ b1 = 1 then
      match parseBlocks rest with
      | some p => if p.2 = u32_to_u8_be (Adler32.crc p.1) then some p.1 else none
      | none => none
    else none
  | _ => none

/-- The 8-byte PNG signature `b"\x89PNG\r\n\x1a\n"` written first. -/
def pngSignature : List Nat := [137, 80, 78, 71, 13, 10, 26, 10]

/-- ASCII bytes of the chunk tag `b"IHDR"`. -/
def tagIHDR : List Nat := [73, 72, 68, 82]

/-- ASCII bytes of the chunk tag `b"IDAT"`. -/
def tagIDAT : List Nat := [73, 68, 65, 84]

/-- ASCII bytes of the chunk tag `b"IEND"`. -/
def tagIEND : List Nat := [73, 69, 78, 68]

/-- Helper `png_pack` inside `write`: the bytes it sends to the sink for one
chunk — `data.len() as u32` big-endian, the tag, the data, then the
CRC-32 obtained from a fresh `Crc32` (`new()` then `start()` seed the
value with `0xffffffff`), updated with the tag and then the data, and
finalized. -/
def png_pack (png_tag data : List Nat) : List Nat :=
  u32_to_u8_be (data.length % U32) ++ png_tag ++ data
    ++ u32_to_u8_be (Crc32.finalize
        (Crc32.update (Crc32.update 0xffffffff png_tag) data))

/-- The 13 IHDR data bytes built in `write`: width and height as
big-endian `u32`s, then `[8, 6, 0, 0, 0]` (bit depth, color type,
compression, filter, interlace). -/
def ihdrData (width height : Nat) : List Nat :=
  u32_to_u8_be width ++ u32_to_u8_be height ++ [8, 6, 0, 0, 0]

/-- Rust slice `&l[a..b]` for `a ≤ b ≤ l.len()`. -/
def listSlice (l : List Nat) (a b : Nat) : List Nat :=
  (l.drop a).take (b - a)

/-- The scanline `loop` in `write`.  Per iteration: push the filter byte
`0`, extend with `image[span .. span + width_byte_4]` (the end index is a
wrapping `u32` sum, and an out-of-range or inverted slice panics, modelled
as `none`), stop when `span == 0`, otherwise `span -= width_byte_4` with
wrapping `u32` subtraction.  `fuel` only bounds the recursion;
`buildScanlines` supplies more fuel than the loop can consume before it
stops or panics. -/
def scanLoop (image : List Nat) (w4 : Nat) :
    Nat → Nat → List Nat → Option (List Nat)
  | 0, _, _ => none
  | fuel + 1, span, acc =>
    let e := (span + w4) % U32
    if span ≤ e ∧ e ≤ image.length then
      let acc2 := acc ++ 0 :: listSlice image span e
      if span = 0 then some acc2
      else scanLoop image w4 fuel ((span + (U32 - w4)) % U32) acc2
    else none

/-- The scanline block of `write`: `width_byte_4 = width * 4`,
`final_len = (width_byte_4 + 1) * height`, the loop starting at
`span = (height - 1) * width_byte_4` (all wrapping `u32` arithmetic),
then the `assert!(final_len == raw_data.len() as u32)`; `none` models a
panic in the loop or in the assertion. -/
def buildScanlines (image : List Nat) (width height : Nat) :
    Option (List Nat) :=
  let w4 := width * 4 % U32
  match scanLoop image w4 (image.length + 2)
      ((height + (U32 - 1)) % U32 * w4 % U32) [] with
  | some raw =>
    if (w4 + 1) * height % U32 = raw.length % U32 then some raw else none
  | none => none

/-- Function `write`, for an infallible sink: returns the bytes emitted to the sink
together with `true` when the function returns `Ok(())`, or the bytes
emitted before a panic together with `false`.  The entry
`assert!(width * height * 4 == image.len() as u32)` compares in `u32`
arithmetic; the signature and the IHDR chunk are emitted before the
scanline block runs, so a scanline or `compress` panic leaves them
written.  The source can return `Err` only from sink writes, which an
infallible sink never produces. -/
def write (image : List Nat) (width height : Nat) : List Nat × Bool :=
  if width * height * 4 % U32 = image.length % U32 then
    let pre := pngSignature ++ png_pack tagIHDR (ihdrData width height)
    match buildScanlines image width height with
    | some raw =>
      match fake_zlib.compress raw with
      | some z => (pre ++ png_pack tagIDAT z ++ png_pack tagIEND [], true)
      | none => (pre, false)
    | none => (pre, false)
  else ([], false)

/-- Modelled from the spec's words for one serialized chunk: a 4-byte
big-endian length of the data, the 4-byte ASCII tag, the data bytes, and
a 4-byte big-endian CRC-32 computed over `tag ++ data` with a freshly
started engine. -/
def chunkBytes (tag data : List Nat) : List Nat :=
  u32_to_u8_be data.length ++ tag ++ data
    ++ u32_to_u8_be (Crc32.crc (tag ++ data))

/-- Big-endian decoding of a 4-byte list, for checking that the IHDR
dimension fields decode back to the original values. -/
def fromBE4 : List Nat → Nat
  | [a, b, c, d] => ((a * 256 + b) * 256 + c) * 256 + d
  | _ => 0

/-- Row `i` of a buffer cut into rows of `stride` bytes. -/
def rowOf (s : List Nat) (stride i : Nat) : List Nat :=
  (s.drop (i * stride)).take stride

/-- The scanline stream the loop in `write` produces for `k` rows of
`w4 = width * 4` bytes: input rows `k-1` down to `0`, each prefixed with
the filter byte `0` — i.e. the input rows in reverse storage order. -/
def revRows (image : List Nat) (w4 : Nat) : Nat → List Nat
  | 0 => []
  | k + 1 => (0 :: rowOf image w4 k) ++ revRows image w4 k

/-- Decidable check that stream `raw`, cut into rows of `1 + w4` bytes,
holds at index `i` the filter byte `0` followed by input row `h - 1 - i`,
for every `i < h`. -/
def rowsReversed (raw img : List Nat) (w4 h : Nat) : Bool :=
  (List.range h).all fun i =>
    rowOf raw (1 + w4) i == 0 :: rowOf img w4 (h - 1 - i)

/-- The 2×2 RGBA sample image built by `main` in the source. -/
def samplePixels : List Nat :=
  [0, 0, 0, 255, 16, 48, 80, 255, 16, 48, 80, 255, 0, 0, 0, 0]

/-- C7: the CRC-32 engine — table entries built by 8 shift/xor iterations,
accumulator seeded `0xffffffff`, bytes folded in order through
`table[(value ^ byte) & 0xff] ^ (value >> 8)`, result xored with
`0xffffffff` — maps the ASCII bytes of the string 123456789 to the
standard check value `0xCBF43926`. -/
theorem claim_C7 :
    Crc32.crc [49, 50, 51, 52, 53, 54, 55, 56, 57] = 0xCBF43926 := by
  decide

/-- C8: the Adler-32 engine — `a` seeded 1, `b` seeded 0, per byte
`a = (a + byte) % 65521` then `b = (a + b) % 65521` with the updated `a`,
finalized as `(b << 16) | a` — maps the ASCII bytes of the string
Wikipedia to the check value `0x11E60398`. -/
theorem claim_C8 :
    Adler32.crc [87, 105, 107, 105, 112, 101, 100, 105, 97] = 0x11E60398 := by
  decide

theorem adlerUpdate_append (s : Nat × Nat) (a b : List Nat) :
    Adler32.update s (a ++ b) = Adler32.update (Adler32.update s a) b := by
  simp [Adler32.update, List.foldl_append]

theorem crcUpdate_append (v : Nat) (a b : List Nat) :
    Crc32.update v (a ++ b) = Crc32.update (Crc32.update v a) b := by
  simp [Crc32.update, List.foldl_append]

theorem final_len_eq (data : List Nat) :
    fake_zlib.final_len data
      = 2 + 5 * numChunksSpec data.length + data.length + 4 := by
  have he : (data.isEmpty = true) ↔ data.length = 0 := by
    rw [List.isEmpty_iff, List.length_eq_zero]
  simp only [fake_zlib.final_len, numChunksSpec, fake_zlib.CHUNK_SIZE, he]
  split_ifs <;> omega

theorem numChunksSpec_step (len : Nat) (h : fake_zlib.CHUNK_SIZE < len) :
    numChunksSpec len = numChunksSpec (len - fake_zlib.CHUNK_SIZE) + 1 := by
  simp only [numChunksSpec, fake_zlib.CHUNK_SIZE] at *
  split_ifs <;> omega

theorem compressChunks_length :
    ∀ (fuel : Nat) (s : Nat × Nat) (data : List Nat), 1 ≤ fuel →
      data.length ≤ fuel * fake_zlib.CHUNK_SIZE →
      (fake_zlib.compressChunks fuel s data).length
        = 5 * numChunksSpec data.length + data.length + 4 := by
  intro fuel
  induction fuel with
  | zero => intro s data h _; omega
  | succ f ih =>
    intro s data _ hlen
    by_cases hc : data.length ≤ fake_zlib.CHUNK_SIZE
    · have h1 : numChunksSpec data.length = 1 := by
        simp only [numChunksSpec, fake_zlib.CHUNK_SIZE] at *
        split_ifs <;> omega
      simp only [fake_zlib.compressChunks, if_pos hc, List.length_append,
        fake_zlib.chunkHeader, u32_to_u8_be, h1, List.length_cons,
        List.length_nil]
    · have hf : 1 ≤ f := by
        simp only [fake_zlib.CHUNK_SIZE] at hc hlen
        by_contra hf0
        omega
      have hl2 : (data.drop fake_zlib.CHUNK_SIZE).length
          ≤ f * fake_zlib.CHUNK_SIZE := by
        simp only [List.length_drop, fake_zlib.CHUNK_SIZE] at *
        omega
      have := ih (Adler32.update s (data.take fake_zlib.CHUNK_SIZE))
        (data.drop fake_zlib.CHUNK_SIZE) hf hl2
      have hstep := numChunksSpec_step data.length (by omega)
      simp only [fake_zlib.compressChunks, if_neg hc, List.length_append,
        this, List.length_drop, List.length_take, fake_zlib.chunkHeader]
      simp only [List.length_cons, List.length_nil, hstep,
        fake_zlib.CHUNK_SIZE] at *
      omega

theorem compressRaw_length (data : List Nat) :
    (fake_zlib.compressRaw data).length
      = 2 + 5 * numChunksSpec data.length + data.length + 4 := by
  have h := compressChunks_length (data.length + 1) (1, 0) data (by omega)
    (by simp only [fake_zlib.CHUNK_SIZE]; omega)
  simp only [fake_zlib.compressRaw, List.length_cons, h]
  omega

theorem compress_eq (data : List Nat) :
    fake_zlib.compress data = some (fake_zlib.compressRaw data) := by
  unfold fake_zlib.compress
  rw [compressRaw_length, final_len_eq, if_pos rfl]

theorem chunksOf_ne_nil (data : List Nat) : chunksOf data ≠ [] := by
  rw [chunksOf]
  split <;> simp

theorem compressChunks_eq_spec :
    ∀ (fuel : Nat) (s : Nat × Nat) (data : List Nat), 1 ≤ fuel →
      data.length ≤ fuel * fake_zlib.CHUNK_SIZE →
      fake_zlib.compressChunks fuel s data
        = specBlocks (chunksOf data)
          ++ u32_to_u8_be (Adler32.finalize (Adler32.update s data)) := by
  intro fuel
  induction fuel with
  | zero => intro s data h _; omega
  | succ f ih =>
    intro s data _ hlen
    by_cases hc : data.length ≤ fake_zlib.CHUNK_SIZE
    · rw [chunksOf]
      simp [fake_zlib.compressChunks, hc, specBlocks, specBlock,
        fake_zlib.chunkHeader]
    · have hf : 1 ≤ f := by
        simp only [fake_zlib.CHUNK_SIZE] at hc hlen
        by_contra hf0
        omega
      have hl2 : (data.drop fake_zlib.CHUNK_SIZE).length
          ≤ f * fake_zlib.CHUNK_SIZE := by
        simp only [List.length_drop, fake_zlib.CHUNK_SIZE] at *
        omega
      have hrec := ih (Adler32.update s (data.take fake_zlib.CHUNK_SIZE))
        (data.drop fake_zlib.CHUNK_SIZE) hf hl2
      have hsplit : Adler32.update (Adler32.update s
            (data.take fake_zlib.CHUNK_SIZE)) (data.drop fake_zlib.CHUNK_SIZE)
          = Adler32.update s data := by
        rw [← adlerUpdate_append, List.take_append_drop]
      rw [hsplit] at hrec
      obtain ⟨c, cs, hcc⟩ : ∃ c cs,
          chunksOf (data.drop fake_zlib.CHUNK_SIZE) = c :: cs := by
        cases hx : chunksOf (data.drop fake_zlib.CHUNK_SIZE) with
        | nil => exact absurd hx (chunksOf_ne_nil _)
        | cons c cs => exact ⟨c, cs, rfl⟩
      have htl : (data.take fake_zlib.CHUNK_SIZE).length
          = fake_zlib.CHUNK_SIZE := by
        simp only [List.length_take]
        omega
      have hunfold : fake_zlib.compressChunks (f + 1) s data
          = fake_zlib.chunkHeader false fake_zlib.CHUNK_SIZE
            ++ data.take fake_zlib.CHUNK_SIZE
            ++ fake_zlib.compressChunks f
                (Adler32.update s (data.take fake_zlib.CHUNK_SIZE))
                (data.drop fake_zlib.CHUNK_SIZE) := by
        simp [fake_zlib.compressChunks, hc]
      have hchunks : chunksOf data
          = data.take fake_zlib.CHUNK_SIZE
            :: chunksOf (data.drop fake_zlib.CHUNK_SIZE) := by
        rw [chunksOf, dif_neg hc]
      rw [hunfold, hrec, hchunks, hcc]
      simp only [specBlocks]
      rw [← hcc]
      simp [specBlock, fake_zlib.chunkHeader, htl, List.append_assoc]

theorem parse_compressChunks :
    ∀ (fuel : Nat) (s : Nat × Nat) (data : List Nat), 1 ≤ fuel →
      data.length ≤ fuel * fake_zlib.CHUNK_SIZE →
      parseBlocks (fake_zlib.compressChunks fuel s data)
        = some (data,
            u32_to_u8_be (Adler32.finalize (Adler32.update s data))) := by
  intro fuel
  induction fuel with
  | zero => intro s data h _; omega
  | succ f ih =>
    intro s data _ hlen
    by_cases hc : data.length ≤ fake_zlib.CHUNK_SIZE
    · have hcons : fake_zlib.compressChunks (f + 1) s data
          = 1 :: (data.length % 256) :: (data.length / 256 % 256)
            :: (255 - data.length % 256) :: (255 - data.length / 256 % 256)
            :: (data ++ u32_to_u8_be (Adler32.finalize (Adler32.update s data))) := by
        simp [fake_zlib.compressChunks, hc, fake_zlib.chunkHeader]
      have hsmall : data.length < 65536 := by
        simp only [fake_zlib.CHUNK_SIZE] at hc
        omega
      have hlrec : data.length % 256 + 256 * (data.length / 256 % 256)
          = data.length := by
        omega
      rw [hcons]
      simp only [parseBlocks]
      rw [hlrec]
      rw [if_pos ⟨by omega, by omega, by
        simp only [List.length_append, u32_to_u8_be, List.length_cons,
          List.length_nil]
        omega⟩]
      simp [@List.take_left' _ data _ data.length rfl,
        @List.drop_left' _ data _ data.length rfl]
    · have hf : 1 ≤ f := by
        simp only [fake_zlib.CHUNK_SIZE] at hc hlen
        by_contra hf0
        omega
      have hl2 : (data.drop fake_zlib.CHUNK_SIZE).length
          ≤ f * fake_zlib.CHUNK_SIZE := by
        simp only [List.length_drop, fake_zlib.CHUNK_SIZE] at *
        omega
      have hrec := ih (Adler32.update s (data.take fake_zlib.CHUNK_SIZE))
        (data.drop fake_zlib.CHUNK_SIZE) hf hl2
      have hsplit : Adler32.update (Adler32.update s
            (data.take fake_zlib.CHUNK_SIZE)) (data.drop fake_zlib.CHUNK_SIZE)
          = Adler32.update s data := by
        rw [← adlerUpdate_append, List.take_append_drop]
      rw [hsplit] at hrec
      have htl : (data.take fake_zlib.CHUNK_SIZE).length = 65530 := by
        simp only [List.length_take, fake_zlib.CHUNK_SIZE] at *
        omega
      have hch : fake_zlib.chunkHeader false fake_zlib.CHUNK_SIZE
          = [0, 250, 255, 5, 0] := by decide
      have hcons : fake_zlib.compressChunks (f + 1) s data
          = 0 :: 250 :: 255 :: 5 :: 0
            :: (data.take fake_zlib.CHUNK_SIZE
                ++ fake_zlib.compressChunks f
                    (Adler32.update s (data.take fake_zlib.CHUNK_SIZE))
                    (data.drop fake_zlib.CHUNK_SIZE)) := by
        simp only [fake_zlib.compressChunks, if_neg hc, hch,
          List.append_assoc, List.cons_append, List.nil_append]
      rw [hcons]
      simp only [parseBlocks]
      norm_num
      refine ⟨?_, ?_⟩
      · simp only [fake_zlib.CHUNK_SIZE] at hc ⊢
        omega
      · rw [@List.drop_left' _ (data.take fake_zlib.CHUNK_SIZE) _ 65530 htl,
          hrec]
        simp [@List.take_left' _ (data.take fake_zlib.CHUNK_SIZE) _ 65530 htl,
          List.take_append_drop]

/-- C3: round-trip law — for every byte sequence `data`,
`fake_zlib::compress` succeeds (its internal assertion holds) and a
reference stored-block zlib decoder applied to its output succeeds and
yields exactly `data`: the decoder checks the 2-byte header, concatenates
the stored-block payloads, and demands that the trailer equal the
big-endian Adler-32 of the payload.  The empty sequence is included. -/
theorem claim_C3 (data : List Nat) :
    fake_zlib.compress data = some (fake_zlib.compressRaw data)
      ∧ zlibDecode (fake_zlib.compressRaw data) = some data := by
  refine ⟨compress_eq data, ?_⟩
  have hp := parse_compressChunks (data.length + 1) (1, 0) data (by omega)
    (by simp only [fake_zlib.CHUNK_SIZE]; omega)
  simp only [fake_zlib.compressRaw, zlibDecode]
  rw [hp]
  simp [Adler32.crc]

/-- C4: for every byte sequence `data`, the length of the compressed
stream is `2 + 5 * numChunks + data.length + 4`, where `numChunks` is
`ceil(len / 65530)` when `len` is not an exact multiple of 65530,
`len / 65530` when it is a nonzero exact multiple, and 1 when `data` is
empty; equivalently, the internal assertion of `fake_zlib::compress`
comparing the precomputed `final_len` with the bytes actually written
never fires (`compress` returns `some`). -/
theorem claim_C4 (data : List Nat) :
    fake_zlib.compress data = some (fake_zlib.compressRaw data)
      ∧ (fake_zlib.compressRaw data).length
        = 2 + 5 * numChunksSpec data.length + data.length + 4 :=
  ⟨compress_eq data, compressRaw_length data⟩

/-- C5: for every byte sequence `data`, the compressed stream is exactly
the spec-described layout: the fixed header `[0x78, 0x01]`, then for each
chunk of at most 65530 bytes in order a final-block flag that is 1 only
for the last chunk, `LEN` little-endian, `NLEN` with each byte `0xFF`
minus the corresponding `LEN` byte, and the raw payload; after the last
chunk, the big-endian 4-byte Adler-32 of all payload bytes. -/
theorem claim_C5 (data : List Nat) :
    fake_zlib.compress data = some (fake_zlib.compressRaw data)
      ∧ fake_zlib.compressRaw data = zlibSpecStream data := by
  refine ⟨compress_eq data, ?_⟩
  have h := compressChunks_eq_spec (data.length + 1) (1, 0) data (by omega)
    (by simp only [fake_zlib.CHUNK_SIZE]; omega)
  simp only [fake_zlib.compressRaw, zlibSpecStream, h, Adler32.crc]
  simp

theorem scanLoop_rows (image : List Nat) (w4 : Nat) (hw4 : 1 ≤ w4) :
    ∀ (k fuel : Nat) (acc : List Nat), k + 1 ≤ fuel →
      (k + 1) * w4 ≤ image.length → (k + 1) * w4 < U32 →
      scanLoop image w4 fuel (k * w4) acc
        = some (acc ++ revRows image w4 (k + 1)) := by
  intro k
  induction k with
  | zero =>
    intro fuel acc hfuel hlen hU
    obtain ⟨f, rfl⟩ : ∃ f, fuel = f + 1 := ⟨fuel - 1, by omega⟩
    have hw4U : w4 < U32 := by
      simp only [U32] at *
      omega
    have he : (0 * w4 + w4) % U32 = w4 := by
      simp only [Nat.zero_mul, Nat.zero_add]
      exact Nat.mod_eq_of_lt hw4U
    simp only [scanLoop, he]
    rw [if_pos ⟨by omega, by omega⟩, if_pos (by omega)]
    simp [revRows, rowOf, listSlice]
  | succ j ih =>
    intro fuel acc hfuel hlen hU
    obtain ⟨f, rfl⟩ : ∃ f, fuel = f + 1 := ⟨fuel - 1, by omega⟩
    have h1 : (j + 1) * w4 = j * w4 + w4 := Nat.succ_mul j w4
    have h2 : (j + 1 + 1) * w4 = (j + 1) * w4 + w4 := Nat.succ_mul (j + 1) w4
    have hU32 : (0 : Nat) < U32 := by simp [U32]
    have he : ((j + 1) * w4 + w4) % U32 = (j + 1) * w4 + w4 := by
      apply Nat.mod_eq_of_lt
      omega
    have hspan : ((j + 1) * w4 + (U32 - w4)) % U32 = j * w4 := by
      have hs : (j + 1) * w4 + (U32 - w4) = j * w4 + U32 := by omega
      rw [hs, Nat.add_mod_right]
      apply Nat.mod_eq_of_lt
      omega
    simp only [scanLoop, he]
    rw [if_pos ⟨by omega, by omega⟩, if_neg (by omega), hspan,
      ih f (acc ++ 0 :: listSlice image ((j + 1) * w4) ((j + 1) * w4 + w4))
        (by omega) (by omega) (by omega)]
    have hslice : listSlice image ((j + 1) * w4) ((j + 1) * w4 + w4)
        = rowOf image w4 (j + 1) := by
      simp [listSlice, rowOf]
    rw [hslice]
    have hrev : revRows image w4 (j + 1 + 1)
        = (0 :: rowOf image w4 (j + 1)) ++ revRows image w4 (j + 1) := rfl
    rw [hrev]
    simp [List.append_assoc]

theorem revRows_length (image : List Nat) (w4 : Nat) :
    ∀ n, n * w4 ≤ image.length →
      (revRows image w4 n).length = n * (1 + w4) := by
  intro n
  induction n with
  | zero => intro _; simp [revRows]
  | succ j ihj =>
    intro hle
    have h1 : (j + 1) * w4 = j * w4 + w4 := Nat.succ_mul j w4
    have hrow : (rowOf image w4 j).length = w4 := by
      simp only [rowOf, List.length_take, List.length_drop]
      omega
    have hj : j * w4 ≤ image.length := by omega
    simp only [revRows, List.length_append, List.length_cons, hrow, ihj hj]
    ring

theorem revRows_rowOf (image : List Nat) (w4 : Nat) :
    ∀ (i k : Nat), i < k → k * w4 ≤ image.length →
      rowOf (revRows image w4 k) (1 + w4) i
        = 0 :: rowOf image w4 (k - 1 - i) := by
  intro i
  induction i with
  | zero =>
    intro k hik hlen
    obtain ⟨j, rfl⟩ : ∃ j, k = j + 1 := ⟨k - 1, by omega⟩
    have h1 : (j + 1) * w4 = j * w4 + w4 := Nat.succ_mul j w4
    have hrow : (0 :: rowOf image w4 j).length = 1 + w4 := by
      simp only [List.length_cons, rowOf, List.length_take, List.length_drop]
      omega
    have hsub : j + 1 - 1 - 0 = j := by omega
    simp only [rowOf, Nat.zero_mul, List.drop_zero, hsub, revRows]
    exact @List.take_left' _ (0 :: rowOf image w4 j) _ (1 + w4) hrow
  | succ i2 ih =>
    intro k hik hlen
    obtain ⟨j, rfl⟩ : ∃ j, k = j + 1 := ⟨k - 1, by omega⟩
    have h1 : (j + 1) * w4 = j * w4 + w4 := Nat.succ_mul j w4
    have hrow : (0 :: rowOf image w4 j).length = 1 + w4 := by
      simp only [List.length_cons, rowOf, List.length_take, List.length_drop]
      omega
    have hmul : (i2 + 1) * (1 + w4) = (1 + w4) + i2 * (1 + w4) := by ring
    have hdrop : (revRows image w4 (j + 1)).drop ((i2 + 1) * (1 + w4))
        = (revRows image w4 j).drop (i2 * (1 + w4)) := by
      have hd1 : revRows image w4 (j + 1)
          = (0 :: rowOf image w4 j) ++ revRows image w4 j := rfl
      rw [hmul, hd1, ← List.drop_drop,
        @List.drop_left' _ (0 :: rowOf image w4 j) _ (1 + w4) hrow]
    have hsub : j + 1 - 1 - (i2 + 1) = j - 1 - i2 := by omega
    simp only [rowOf] at ih ⊢
    rw [hdrop, hsub]
    exact ih j (by omega) (by omega)

theorem rowsReversed_true (image : List Nat) (w4 h : Nat)
    (hlen : h * w4 ≤ image.length) :
    rowsReversed (revRows image w4 h) image w4 h = true := by
  simp only [rowsReversed, List.all_eq_true, List.mem_range]
  intro i hi
  rw [beq_iff_eq]
  exact revRows_rowOf image w4 i h hi hlen

theorem buildScanlines_eq (image : List Nat) (w h : Nat) (hw : 1 ≤ w)
    (hh : 1 ≤ h) (hlen : image.length = w * h * 4)
    (hU : (4 * w + 1) * h < U32) :
    buildScanlines image w h = some (revRows image (w * 4) h) := by
  obtain ⟨k, rfl⟩ : ∃ k, h = k + 1 := ⟨h - 1, by omega⟩
  have hlen' : image.length = (k + 1) * (w * 4) := by rw [hlen]; ring
  have hcomm : (4 * w + 1) * (k + 1) = (k + 1) * (w * 4) + (k + 1) := by ring
  have hkw : (k + 1) * (w * 4) < U32 := by omega
  have hmono : 1 * (w * 4) ≤ (k + 1) * (w * 4) :=
    Nat.mul_le_mul_right (w * 4) (by omega)
  have hm2 : (k + 1) * 1 ≤ (k + 1) * (w * 4) :=
    Nat.mul_le_mul_left (k + 1) (by omega)
  have hw4U : w * 4 % U32 = w * 4 := Nat.mod_eq_of_lt (by omega)
  have hkU : k < U32 := by omega
  have hk1 : (k + 1 + (U32 - 1)) % U32 = k := by
    simp only [U32] at *
    omega
  have hkmul : k * (w * 4) ≤ (k + 1) * (w * 4) :=
    Nat.mul_le_mul_right (w * 4) (by omega)
  have hspan : k * (w * 4) % U32 = k * (w * 4) := Nat.mod_eq_of_lt (by omega)
  have hfuel : k + 1 ≤ image.length + 2 := by omega
  have hrows := scanLoop_rows image (w * 4) (by omega) k (image.length + 2) []
    hfuel (by omega) hkw
  have hrlen : (revRows image (w * 4) (k + 1)).length
      = (k + 1) * (1 + w * 4) :=
    revRows_length image (w * 4) (k + 1) (by omega)
  simp only [buildScanlines, hw4U, hk1, hspan, hrows, List.nil_append]
  rw [if_pos (by
    rw [hrlen, show (w * 4 + 1) * (k + 1) = (k + 1) * (1 + w * 4) from by ring])]

theorem png_pack_eq_chunkBytes (tag data : List Nat) (h : data.length < U32) :
    png_pack tag data = chunkBytes tag data := by
  unfold png_pack chunkBytes Crc32.crc
  rw [Nat.mod_eq_of_lt h, crcUpdate_append]

theorem compressRaw_lt (data : List Nat) (h : data.length < 2147483648) :
    (fake_zlib.compressRaw data).length < U32 := by
  rw [compressRaw_length]
  simp only [numChunksSpec, fake_zlib.CHUNK_SIZE, U32]
  split_ifs <;> omega

theorem ihdrData_length (w h : Nat) : (ihdrData w h).length = 13 := by
  simp [ihdrData, u32_to_u8_be]

theorem write_success (image : List Nat) (w h : Nat) (hw : 1 ≤ w)
    (hh : 1 ≤ h) (hlen : image.length = w * h * 4)
    (hB : (4 * w + 1) * h < 2147483648) :
    write image w h
      = (pngSignature ++ chunkBytes tagIHDR (ihdrData w h)
          ++ chunkBytes tagIDAT
              (fake_zlib.compressRaw (revRows image (w * 4) h))
          ++ chunkBytes tagIEND [], true) := by
  have hU : (4 * w + 1) * h < U32 := by
    simp only [U32]
    omega
  have hassert : w * h * 4 % U32 = image.length % U32 := by rw [hlen]
  have hbs := buildScanlines_eq image w h hw hh hlen hU
  have hring : h * (w * 4) ≤ image.length := by
    rw [hlen, show w * h * 4 = h * (w * 4) from by ring]
  have hrlen : (revRows image (w * 4) h).length = h * (1 + w * 4) :=
    revRows_length image (w * 4) h hring
  have hidat : (fake_zlib.compressRaw (revRows image (w * 4) h)).length
      < U32 := by
    apply compressRaw_lt
    rw [hrlen]
    have hc2 : h * (1 + w * 4) = (4 * w + 1) * h := by ring
    omega
  unfold write
  rw [if_pos hassert]
  simp only [hbs, compress_eq]
  rw [png_pack_eq_chunkBytes tagIHDR (ihdrData w h)
      (by rw [ihdrData_length]; simp [U32]),
    png_pack_eq_chunkBytes tagIDAT _ hidat,
    png_pack_eq_chunkBytes tagIEND [] (by simp [U32])]

/-- C1 (amended): for `width ≥ 1`, `height ≥ 1` and
`(4*width + 1)*height < 2^31` (no 32-bit overflow in the scanline and
chunk arithmetic), a pixel buffer satisfying the precondition makes
`write` return `Ok` with a byte stream that begins with the 8-byte PNG
signature and consists of exactly the three chunks `IHDR`, `IDAT`, `IEND`
in that order, each serialized as big-endian data length, ASCII tag, data
bytes, and big-endian CRC-32 over `tag ++ data` from a freshly started
engine.  As literally stated over all precondition-satisfying triples the
claim fails (`height = 0` panics mid-stream; see the counterexample). -/
theorem claim_C1 (image : List Nat) (w h : Nat) (hw : 1 ≤ w) (hh : 1 ≤ h)
    (hlen : image.length = w * h * 4) (hB : (4 * w + 1) * h < 2147483648) :
    write image w h
      = (pngSignature ++ chunkBytes tagIHDR (ihdrData w h)
          ++ chunkBytes tagIDAT
              (fake_zlib.compressRaw (revRows image (w * 4) h))
          ++ chunkBytes tagIEND [], true) :=
  write_success image w h hw hh hlen hB

/-- C1 counterexample: `(width, height, pixels) = (1, 0, [])` satisfies
the precondition `pixels.len() = width*height*4`, yet `write` panics
after emitting only the signature and the IHDR chunk — the emitted stream
does not consist of three chunks, so the claim as stated is false. -/
theorem claim_C1_counterexample :
    ([] : List Nat).length = 1 * 0 * 4
      ∧ write [] 1 0 = (pngSignature ++ chunkBytes tagIHDR (ihdrData 1 0),
          false) := by
  exact ⟨rfl, by decide⟩

/-- C1 witness: the amended claim instantiated at the 2×2 sample image
from `main`. -/
theorem claim_C1_witness :
    (1 ≤ 2 ∧ 1 ≤ 2 ∧ samplePixels.length = 2 * 2 * 4
        ∧ (4 * 2 + 1) * 2 < 2147483648)
      ∧ write samplePixels 2 2
        = (pngSignature ++ chunkBytes tagIHDR (ihdrData 2 2)
            ++ chunkBytes tagIDAT
                (fake_zlib.compressRaw (revRows samplePixels (2 * 4) 2))
            ++ chunkBytes tagIEND [], true) :=
  ⟨⟨by decide, by decide, by decide, by decide⟩,
    claim_C1 samplePixels 2 2 (by decide) (by decide) (by decide) (by decide)⟩

/-- C2 (amended): for `width ≥ 1`, `height ≥ 1` and
`(4*width + 1)*height < 2^32` (no 32-bit overflow), a pixel buffer
satisfying the precondition makes the scanline stream handed to the
compressor equal `revRows`, of length `height * (1 + width*4)`, and row
`i` of the stream is the filter byte 0 followed by input pixel row
`height - 1 - i` — input rows in reverse storage order, last row first.
As literally stated over all precondition-satisfying triples the claim
fails (`height = 0` never hands a stream to the compressor; see the
counterexample). -/
theorem claim_C2 (image : List Nat) (w h : Nat) (hw : 1 ≤ w) (hh : 1 ≤ h)
    (hlen : image.length = w * h * 4) (hU : (4 * w + 1) * h < U32) :
    buildScanlines image w h = some (revRows image (w * 4) h)
      ∧ (revRows image (w * 4) h).length = h * (1 + w * 4)
      ∧ rowsReversed (revRows image (w * 4) h) image (w * 4) h = true := by
  have hring : h * (w * 4) ≤ image.length := by
    rw [hlen, show w * h * 4 = h * (w * 4) from by ring]
  exact ⟨buildScanlines_eq image w h hw hh hlen hU,
    revRows_length image (w * 4) h hring,
    rowsReversed_true image (w * 4) h hring⟩

/-- C2 counterexample: `(width, height, pixels) = (3, 0, [])` satisfies
the precondition, but the scanline builder panics (u32 underflow of
`(height-1)*width*4` leads to an out-of-range slice), so no scanline
stream is ever handed to the compressor and the claim as stated is
false. -/
theorem claim_C2_counterexample :
    ([] : List Nat).length = 3 * 0 * 4
      ∧ buildScanlines [] 3 0 = none
      ∧ (write [] 3 0).2 = false := by
  exact ⟨rfl, by decide, by decide⟩

/-- C2 witness: the amended claim instantiated at the 2×2 sample image
from `main`. -/
theorem claim_C2_witness :
    (1 ≤ 2 ∧ 1 ≤ 2 ∧ samplePixels.length = 2 * 2 * 4
        ∧ (4 * 2 + 1) * 2 < U32)
      ∧ (buildScanlines samplePixels 2 2
          = some (revRows samplePixels (2 * 4) 2)
        ∧ (revRows samplePixels (2 * 4) 2).length = 2 * (1 + 2 * 4)
        ∧ rowsReversed (revRows samplePixels (2 * 4) 2) samplePixels
            (2 * 4) 2 = true) :=
  ⟨⟨by decide, by decide, by decide, by decide⟩,
    claim_C2 samplePixels 2 2 (by decide) (by decide) (by decide) (by decide)⟩

/-- C6: for any `u32` width and height and any pixel buffer passing the
entry assertion, the IHDR chunk data is exactly 13 bytes — bytes 1-4 the
big-endian width (decoding back to `width`), bytes 5-8 the big-endian
height (decoding back to `height`), byte 9 = 8 (bit depth), byte 10 = 6
(color type), bytes 11-13 = 0 — and the stream `write` emits carries
exactly this data in its IHDR chunk (the first 33 bytes are the signature
followed by the serialized IHDR chunk). -/
theorem claim_C6 (w h : Nat) (image : List Nat) (hwU : w < U32)
    (hhU : h < U32) (hassert : w * h * 4 % U32 = image.length % U32) :
    (ihdrData w h).length = 13
      ∧ (ihdrData w h).take 4 = u32_to_u8_be w
      ∧ fromBE4 ((ihdrData w h).take 4) = w
      ∧ fromBE4 (((ihdrData w h).drop 4).take 4) = h
      ∧ (ihdrData w h).drop 8 = [8, 6, 0, 0, 0]
      ∧ (write image w h).1.take 33
        = pngSignature ++ chunkBytes tagIHDR (ihdrData w h) := by
  refine ⟨ihdrData_length w h, ?_, ?_, ?_, ?_, ?_⟩
  · simp [ihdrData, u32_to_u8_be]
  · simp only [ihdrData, u32_to_u8_be, List.cons_append, List.nil_append,
      List.take, fromBE4]
    simp only [U32] at hwU
    omega
  · simp only [ihdrData, u32_to_u8_be, List.cons_append, List.nil_append,
      List.drop, List.take, fromBE4]
    simp only [U32] at hhU
    omega
  · simp [ihdrData, u32_to_u8_be]
  · have hpp : png_pack tagIHDR (ihdrData w h)
        = chunkBytes tagIHDR (ihdrData w h) :=
      png_pack_eq_chunkBytes tagIHDR (ihdrData w h)
        (by rw [ihdrData_length]; simp [U32])
    have hpre : (pngSignature ++ png_pack tagIHDR (ihdrData w h)).length
        = 33 := by
      simp [pngSignature, png_pack, u32_to_u8_be, tagIHDR, ihdrData_length]
    unfold write
    rw [if_pos hassert]
    cases hbs : buildScanlines image w h with
    | none =>
      dsimp only
      rw [List.take_of_length_le (by omega), hpp]
    | some raw =>
      dsimp only
      cases hcz : fake_zlib.compress raw with
      | none =>
        dsimp only
        rw [List.take_of_length_le (by omega), hpp]
      | some z =>
        dsimp only
        rw [show (33 : Nat)
            = (pngSignature ++ png_pack tagIHDR (ihdrData w h)).length
            from hpre.symm]
        rw [List.append_assoc (pngSignature ++ png_pack tagIHDR (ihdrData w h))
          (png_pack tagIDAT z) (png_pack tagIEND [])]
        rw [List.take_left, hpp]

/-- C6 witness: instantiated at `width = height = 1` with a matching
4-byte pixel buffer. -/
theorem claim_C6_witness :
    ((1 : Nat) < U32 ∧ (1 : Nat) < U32
        ∧ 1 * 1 * 4 % U32 = ([9, 9, 9, 9] : List Nat).length % U32)
      ∧ ((ihdrData 1 1).length = 13
        ∧ (ihdrData 1 1).take 4 = u32_to_u8_be 1
        ∧ fromBE4 ((ihdrData 1 1).take 4) = 1
        ∧ fromBE4 (((ihdrData 1 1).drop 4).take 4) = 1
        ∧ (ihdrData 1 1).drop 8 = [8, 6, 0, 0, 0]
        ∧ (write [9, 9, 9, 9] 1 1).1.take 33
          = pngSignature ++ chunkBytes tagIHDR (ihdrData 1 1)) :=
  ⟨⟨by decide, by decide, by decide⟩,
    claim_C6 1 1 [9, 9, 9, 9] (by decide) (by decide) (by decide)⟩

/-- C9: `write` aborts with the entry assertion — emitting no bytes and
returning no typed error (the model has no error value: the source can
only return `Err` from sink writes) — exactly when the `u32` comparison
`width * height * 4 == pixels.len() as u32` fails; equivalently, it
proceeds past the assertion exactly when the two sides agree modulo
`2^32`. -/
theorem claim_C9 (image : List Nat) (w h : Nat) :
    write image w h = ([], false)
      ↔ ¬ w * h * 4 % U32 = image.length % U32 := by
  unfold write
  by_cases hc : w * h * 4 % U32 = image.length % U32
  · rw [if_pos hc]
    simp only [hc, not_true, iff_false]
    cases hbs : buildScanlines image w h with
    | none => simp [pngSignature, png_pack]
    | some raw =>
      dsimp only
      cases hcz : fake_zlib.compress raw with
      | none => simp [pngSignature, png_pack]
      | some z => simp [pngSignature, png_pack]
  · rw [if_neg hc]
    simp [hc]

/-- C10 (amended): with a matching (empty) pixel buffer, `write` panics
for `height = 0` (the wrapped `u32` computation `(height-1)*width*4`
leads to an out-of-range slice, or for `width = 0` to the failing
scanline-length assertion) and panics for `width = 0` with `height ≥ 2`
(scanline-length assertion `final_len == raw_data.len()` fails, since the
loop emits one row instead of `height`), so no PNG is emitted in those
cases; but the claim's clause totality only when `width ≥ 1` and
`height ≥ 1` is refuted by `width = 0, height = 1`, where `write`
succeeds and returns `Ok` (see the counterexample). -/
theorem claim_C10 :
    (∀ w : Nat, w < U32 → (write [] w 0).2 = false)
      ∧ (∀ h : Nat, 2 ≤ h → h < U32 → (write [] 0 h).2 = false)
      ∧ (write [] 0 1).2 = true := by
  refine ⟨?_, ?_, by decide⟩
  · intro w hwU
    unfold write
    rw [if_pos (by simp)]
    have hbs : buildScanlines [] w 0 = none := by
      by_cases hz : w * 4 % U32 = 0
      · simp only [buildScanlines, hz]
        decide
      · have hw4U : w * 4 % U32 < U32 := Nat.mod_lt _ (by simp [U32])
        have hspan : (0 + (U32 - 1)) % U32 * (w * 4 % U32) % U32
            = U32 - w * 4 % U32 := by
          simp only [U32] at *
          omega
        simp only [buildScanlines, hspan, scanLoop]
        rw [if_neg (by
          simp only [U32] at *
          omega)]
    rw [hbs]
  · intro h h2 hU
    unfold write
    rw [if_pos (by simp)]
    have hs : scanLoop ([] : List Nat) (0 * 4 % U32) (0 + 2)
        ((h + (U32 - 1)) % U32 * (0 * 4 % U32) % U32) [] = some [0] := by
      have hz : (0 : Nat) * 4 % U32 = 0 := by decide
      rw [hz, Nat.mul_zero, Nat.zero_mod]
      decide
    have hbs : buildScanlines [] 0 h = none := by
      simp only [buildScanlines, List.length_nil, hs]
      rw [if_neg (by
        simp only [U32] at *
        simp only [List.length_cons, List.length_nil]
        omega)]
    rw [hbs]

/-- C10 counterexample: `width = 0, height = 1` with the matching empty
pixel buffer satisfies the precondition and `write` completes
successfully (emits a PNG and returns `Ok`), refuting write is total
only when `width ≥ 1 and height ≥ 1`. -/
theorem claim_C10_counterexample :
    ([] : List Nat).length = 0 * 1 * 4 ∧ (write [] 0 1).2 = true := by
  exact ⟨rfl, by decide⟩

/-- C10 witness: the panic cases instantiated at `width = 5, height = 0`
and `width = 0, height = 3`. -/
theorem claim_C10_witness :
    (write [] 5 0).2 = false ∧ (write [] 0 3).2 = false :=
  ⟨claim_C10.1 5 (by decide), claim_C10.2.1 3 (by decide) (by decide)⟩

end Logo
